import Mathlib

/-!
# Verification of `MINE/split_train_valid.py`

A shallow embedding of the dataset-splitting utility: discovery of
image/label pairs, the seeded shuffle-and-slice partitioner, and the
copy materializer, together with theorems checking the specification's
claims against the embedded code.

Paths are modelled as plain strings with `/` as separator; file contents
are modelled as abstract tokens (`Nat`); the filesystem is a record of the
set of existing directories and an association list from file path to
content.
-/

namespace SplitTrainValid

/-- Split a character list at every occurrence of the separator `c`
(the splitting behind `str.split` / `os.path` component handling). -/
def splitChar (c : Char) : List Char → List (List Char)
  | [] => [[]]
  | x :: xs =>
    match splitChar c xs with
    | [] => [[]]
    | g :: gs => if x = c then [] :: g :: gs else (x :: g) :: gs

/-- Join character-list groups with the separator `c` between them. -/
def joinWith (c : Char) : List (List Char) → List Char
  | [] => []
  | [g] => g
  | g :: gs => g ++ c :: joinWith c gs

/-- Modelled from the spec: `os.path.join(dir, name)` for a single name,
POSIX separator. -/
def joinPath (d n : String) : String := d ++ "/" ++ n

/-- Modelled from the spec: `os.path.basename` — the component after the
last separator. -/
def basename (p : String) : String :=
  String.mk ((splitChar '/' p.data).getLastD [])

/-- Modelled from the spec: `os.path.dirname` — everything before the last
separator (used at line 100 of the source, `base_dir = os.path.dirname(images_dir)`). -/
def dirname (p : String) : String :=
  String.mk (joinWith '/' (splitChar '/' p.data).dropLast)

/-- Modelled from the spec: the stem returned by `os.path.splitext` — the
filename without its last extension ("derive the stem (filename without
extension)"); the leading-dot special case of CPython is irrelevant here
because glob never returns hidden names. -/
def splitextStem (b : String) : String :=
  let parts := splitChar '.' b.data
  if parts.length ≤ 1 then b else String.mk (joinWith '.' parts.dropLast)

/-- Modelled from the spec: matching of a directory entry name against the
glob pattern `*<ext>` (`*.jpg` / `*.jpeg`): `*` matches any run of
characters of a non-hidden name, so a name matches iff it does not start
with `.` and ends with the literal extension (glob is case-sensitive). -/
def globMatch (ext : String) (n : String) : Bool :=
  (n.data.take 1 != ['.']) && ext.data.isSuffixOf n.data

/-- The filesystem model: the set of existing directory paths, and an
association list from file path to abstract content token (first entry
wins, so prepending is overwriting). -/
structure FS where
  dirs : List String
  files : List (String × Nat)

/-- Content of the file at `p`, if it exists. -/
def readFile (fs : FS) (p : String) : Option Nat :=
  (fs.files.find? (fun e => e.1 == p)).map (·.2)

/-- Write (create or overwrite) the file at `p` with content `c`. -/
def writeFile (fs : FS) (p : String) (c : Nat) : FS :=
  { fs with files := (p, c) :: fs.files }

/-- `os.path.exists` restricted to files, as used for label lookups. -/
def isFile (fs : FS) (p : String) : Bool := (readFile fs p).isSome

/-- The entry names of the files directly inside directory `d`. -/
def listDir (fs : FS) (d : String) : List String :=
  fs.files.filterMap (fun e =>
    let pre := (d ++ "/").data
    if pre.isPrefixOf e.1.data && !((e.1.data.drop pre.length).contains '/')
    then some (String.mk (e.1.data.drop pre.length)) else none)

/-- The successive path prefixes of `d` that `os.makedirs` creates, e.g.
`"a/b/c"` gives `["a", "a/b", "a/b/c"]` (and `"/a/b"` gives `["/a", "/a/b"]`). -/
def pathPrefixes (d : String) : List String :=
  let comps := splitChar '/' d.data
  ((List.range comps.length).map
    (fun i => String.mk (joinWith '/' (comps.take (i + 1))))).filter (· ≠ "")

/-- Create one directory level: a no-op if it already exists as a
directory, an error if a file occupies the path. -/
def mkdirOne (fs : FS) (p : String) : Except String FS :=
  if p ∈ fs.dirs then .ok fs
  else if (fs.files.map Prod.fst).contains p then
    .error ("NotADirectoryError: " ++ p)
  else .ok { fs with dirs := p :: fs.dirs }

/-- Create each path of a prefix chain in turn, propagating the first
error. -/
def mkdirsPrefixes (fs : FS) : List String → Except String FS
  | [] => .ok fs
  | p :: ps =>
    match mkdirOne fs p with
    | .error e => .error e
    | .ok fs' => mkdirsPrefixes fs' ps

/-- Modelled from the spec: `os.makedirs(d, exist_ok=...)` — create `d`
recursively; with `exist_ok = false` an existing leaf directory is an
error, with `exist_ok = true` it is not. -/
def makedirs (fs : FS) (d : String) (exist_ok : Bool) : Except String FS :=
  if d ∈ fs.dirs && !exist_ok then .error ("FileExistsError: " ++ d)
  else mkdirsPrefixes fs (pathPrefixes d)

/-- The four output directories of the layout, in creation order
(source lines 47–52). -/
def layoutDirs (base_dir : String) : List String :=
  [joinPath (joinPath base_dir "train") "images",
   joinPath (joinPath base_dir "train") "labels",
   joinPath (joinPath base_dir "valid") "images",
   joinPath (joinPath base_dir "valid") "labels"]

/-- The `for d in dirs: os.makedirs(d, exist_ok=True)` loop of
`create_dir_structure`, propagating the first error. -/
def makedirsAll (fs : FS) : List String → Except String FS
  | [] => .ok fs
  | d :: ds =>
    match makedirs fs d true with
    | .error e => .error e
    | .ok fs' => makedirsAll fs' ds

/-- `create_dir_structure` (source lines 42–56): create the four output
directories under `base_dir`, each with `exist_ok=True`. -/
def create_dir_structure (fs : FS) (base_dir : String) : Except String FS :=
  makedirsAll fs (layoutDirs base_dir)

/-- The `*.jpg` matches followed by the `*.jpeg` matches over the entries
of the images directory, as full paths (source lines 69–73), before
sorting. -/
def globImages (images_dir : String) (entries : List String) : List String :=
  (entries.filter (fun n => globMatch ".jpg" n)).map (joinPath images_dir) ++
    (entries.filter (fun n => globMatch ".jpeg" n)).map (joinPath images_dir)

/-- Modelled from the spec: Python `sorted` — "Sort the enumerated image
paths lexicographically by full path"; embedded as insertion sort over
the lexicographic order on strings. -/
def pySorted (l : List String) : List String := l.insertionSort (· ≤ ·)

/-- `image_files = sorted(glob(*.jpg) + glob(*.jpeg))` (source lines 69–73). -/
def image_files (images_dir : String) (entries : List String) : List String :=
  pySorted (globImages images_dir entries)

/-- The label path `os.path.join(labels_dir, base_name + '.txt')` derived
from an image path (source lines 80–81). -/
def labelPathFor (labels_dir img_path : String) : String :=
  joinPath labels_dir (splitextStem (basename img_path) ++ ".txt")

/-- The `valid_pairs` loop (source lines 78–85): keep `(img, label)`
exactly when the label file exists. -/
def valid_pairs (fs : FS) (labels_dir : String) (imgs : List String) :
    List (String × String) :=
  imgs.filterMap (fun img_path =>
    let label_path := labelPathFor labels_dir img_path
    if isFile fs label_path then some (img_path, label_path) else none)

/-- The warning lines of the same loop: one `(image path, missing label
path)` per skipped image (source line 85). -/
def skip_warnings (fs : FS) (labels_dir : String) (imgs : List String) :
    List (String × String) :=
  imgs.filterMap (fun img_path =>
    let label_path := labelPathFor labels_dir img_path
    if isFile fs label_path then none else some (img_path, label_path))

/-- Modelled from the spec: one step of the seeded pseudo-random
generator (`random` is standard library, not repository code; the spec
requires only a deterministic seeded generator). -/
def lcgNext (s : Nat) : Nat :=
  (s * 6364136223846793005 + 1442695040888963407) % 18446744073709551616

/-- Modelled from the spec: "a single full ... random shuffle of the
candidate list using the seeded generator" — a Fisher–Yates-style draw
that repeatedly extracts the element at a generator-chosen index. The
first argument is fuel, instantiated with the list length in `shuffle`. -/
def shuffleAux {α : Type} : Nat → Nat → List α → List α
  | 0, _, _ => []
  | fuel + 1, s, l =>
    if h : l.length = 0 then []
    else
      l.get ⟨s % l.length, Nat.mod_lt _ (Nat.pos_of_ne_zero h)⟩ ::
        shuffleAux fuel (lcgNext s) (l.eraseIdx (s % l.length))

/-- `random.seed(seed)` followed by `random.shuffle(valid_pairs)`
(source lines 66 and 93). -/
def shuffle {α : Type} (seed : Nat) (l : List α) : List α :=
  shuffleAux l.length (lcgNext seed) l

/-- Modelled from CPython semantics: `int()` applied to a number
truncates toward zero. The `train_ratio` float is embedded as an exact
rational. -/
def pyInt (q : ℚ) : ℤ := if 0 ≤ q then ⌊q⌋ else -⌊-q⌋

/-- CPython slice-bound normalization for a sequence of length `n`: a
negative bound counts from the end, and bounds are clamped to `[0, n]`. -/
def pySliceBound (n : ℕ) (k : ℤ) : ℕ :=
  if k < 0 then (k + n).toNat else min k.toNat n

/-- `l[:k]` for an arbitrary integer `k`. -/
def pyTake {α : Type} (l : List α) (k : ℤ) : List α :=
  l.take (pySliceBound l.length k)

/-- `l[k:]` for an arbitrary integer `k`. -/
def pyDrop {α : Type} (l : List α) (k : ℤ) : List α :=
  l.drop (pySliceBound l.length k)

/-- The partition step (source lines 89–95): `total = len(valid_pairs)`,
`train_count = int(total * train_ratio)`, shuffle, then slice into the
training prefix and the validation suffix. -/
def partition {α : Type} (pairs : List α) (train_ratio : ℚ) (seed : Nat) :
    List α × List α :=
  let total := pairs.length
  let train_count := pyInt (total * train_ratio)
  let shuffled := shuffle seed pairs
  (pyTake shuffled train_count, pyDrop shuffled train_count)

/-- Modelled from the spec: `shutil.copy2(src, dst)` — copy the content
of `src` to `dst` ("every copied file's content is byte-identical to its
source"); timestamp metadata is elided from the model. Fails when the
source does not exist. -/
def copy2 (fs : FS) (src dst : String) : Except String FS :=
  match readFile fs src with
  | some c => .ok (writeFile fs dst c)
  | none => .error ("FileNotFoundError: " ++ src)

/-- `copy_data` (source lines 111–121): copy each image into
`img_out_dir` and each label into `label_out_dir`, under the original
filenames. -/
def copy_data (fs : FS) (img_out_dir label_out_dir : String) :
    List (String × String) → Except String FS
  | [] => .ok fs
  | (img_path, label_path) :: rest =>
    match copy2 fs img_path (joinPath img_out_dir (basename img_path)) with
    | .error e => .error e
    | .ok fs1 =>
      match copy2 fs1 label_path (joinPath label_out_dir (basename label_path)) with
      | .error e => .error e
      | .ok fs2 => copy_data fs2 img_out_dir label_out_dir rest

/-- `split_and_copy` (source lines 58–131): discovery, partition, output
directory creation, and the two copy batches, in source order. -/
def split_and_copy (fs : FS) (images_dir labels_dir : String)
    (train_ratio : ℚ) (seed : Nat) : Except String FS := do
  let imgs := image_files images_dir (listDir fs images_dir)
  let pairs := valid_pairs fs labels_dir imgs
  let (train_pairs, valid_pairs_) := partition pairs train_ratio seed
  let base_dir := dirname images_dir
  let fs ← create_dir_structure fs base_dir
  let fs ← copy_data fs (joinPath (joinPath base_dir "train") "images")
    (joinPath (joinPath base_dir "train") "labels") train_pairs
  let fs ← copy_data fs (joinPath (joinPath base_dir "valid") "images")
    (joinPath (joinPath base_dir "valid") "labels") valid_pairs_
  return fs

/-- `main` (source lines 133–155): check that the two input directories
exist, raising `FileNotFoundError` naming the offending path otherwise,
and only then run `split_and_copy`. -/
def main (fs : FS) (images_dir labels_dir : String) (train_ratio : ℚ)
    (seed : Nat) : Except String FS :=
  if images_dir ∉ fs.dirs then
    .error ("FileNotFoundError: images_dir: " ++ images_dir)
  else if labels_dir ∉ fs.dirs then
    .error ("FileNotFoundError: labels_dir: " ++ labels_dir)
  else
    split_and_copy fs images_dir labels_dir train_ratio seed

/-! ## Helper lemmas -/

theorem get_cons_eraseIdx_perm {α : Type} (l : List α) (j : Nat) (h : j < l.length) :
    List.Perm (l.get ⟨j, h⟩ :: l.eraseIdx j) l := by
  induction l generalizing j with
  | nil => simp at h
  | cons a l ih =>
    cases j with
    | zero => simp [List.eraseIdx]
    | succ j =>
      have h' : j < l.length := Nat.lt_of_succ_lt_succ (by simpa using h)
      have e1 : (a :: l).get ⟨j + 1, h⟩ = l.get ⟨j, h'⟩ := rfl
      have e2 : (a :: l).eraseIdx (j + 1) = a :: l.eraseIdx j := rfl
      rw [e1, e2]
      exact (List.Perm.swap a _ _).trans (((ih j h')).cons a)

theorem shuffleAux_perm {α : Type} :
    ∀ (fuel s : Nat) (l : List α), l.length ≤ fuel → List.Perm (shuffleAux fuel s l) l
  | 0, _, l, h => by
    have hl : l = [] := List.eq_nil_of_length_eq_zero (Nat.le_zero.mp h)
    simp [hl, shuffleAux]
  | fuel + 1, s, l, h => by
    by_cases hl : l.length = 0
    · simp [shuffleAux, hl, List.eq_nil_of_length_eq_zero hl]
    · have hj : s % l.length < l.length := Nat.mod_lt _ (Nat.pos_of_ne_zero hl)
      have hrec : (l.eraseIdx (s % l.length)).length ≤ fuel := by
        have := List.length_eraseIdx_add_one hj
        omega
      have ihp := shuffleAux_perm fuel (lcgNext s) (l.eraseIdx (s % l.length)) hrec
      simp only [shuffleAux, dif_neg hl]
      exact (ihp.cons _).trans (get_cons_eraseIdx_perm l _ hj)

theorem shuffle_perm {α : Type} (seed : Nat) (l : List α) : List.Perm (shuffle seed l) l :=
  shuffleAux_perm l.length (lcgNext seed) l le_rfl

theorem shuffle_length {α : Type} (seed : Nat) (l : List α) :
    (shuffle seed l).length = l.length :=
  (shuffle_perm seed l).length_eq

theorem partition_append {α : Type} (pairs : List α) (train_ratio : ℚ) (seed : Nat) :
    (partition pairs train_ratio seed).1 ++ (partition pairs train_ratio seed).2 =
      shuffle seed pairs := by
  simp [partition, pyTake, pyDrop, List.take_append_drop]

theorem pyInt_nonneg (q : ℚ) (h : 0 ≤ q) : pyInt q = ⌊q⌋ := by
  simp [pyInt, h]

theorem partition_fst_length {α : Type} (pairs : List α) (train_ratio : ℚ)
    (seed : Nat) (h1 : 0 ≤ train_ratio) (h2 : train_ratio ≤ 1) :
    ((partition pairs train_ratio seed).1.length : ℤ) =
      ⌊(pairs.length : ℚ) * train_ratio⌋ := by
  have hq : (0 : ℚ) ≤ (pairs.length : ℚ) * train_ratio :=
    mul_nonneg (by positivity) h1
  have hfl0 : 0 ≤ ⌊(pairs.length : ℚ) * train_ratio⌋ := Int.floor_nonneg.mpr hq
  have hle : (pairs.length : ℚ) * train_ratio ≤ (pairs.length : ℚ) := by
    calc (pairs.length : ℚ) * train_ratio ≤ (pairs.length : ℚ) * 1 := by
          exact mul_le_mul_of_nonneg_left h2 (by positivity)
      _ = (pairs.length : ℚ) := mul_one _
  have hfln : ⌊(pairs.length : ℚ) * train_ratio⌋ ≤ (pairs.length : ℤ) := by
    have := Int.floor_le_floor hle
    simpa using this
  simp only [partition, pyTake, pySliceBound, pyInt_nonneg _ hq]
  rw [if_neg (by omega), List.length_take, shuffle_length]
  omega

theorem image_files_sorted (images_dir : String) (entries : List String) :
    (image_files images_dir entries).Sorted (· ≤ ·) :=
  List.sorted_insertionSort _ _

theorem image_files_perm_inv (images_dir : String) {entries₁ entries₂ : List String}
    (h : List.Perm entries₁ entries₂) :
    image_files images_dir entries₁ = image_files images_dir entries₂ := by
  apply List.eq_of_perm_of_sorted ?_ (image_files_sorted _ _) (image_files_sorted _ _)
  refine (List.perm_insertionSort _ _).trans (.trans ?_ (List.perm_insertionSort _ _).symm)
  exact ((h.filter _).map _).append ((h.filter _).map _)

/-- The destination paths written by `copy_data`, in write order. -/
def destPaths (img_out_dir label_out_dir : String) :
    List (String × String) → List String
  | [] => []
  | (img_path, label_path) :: rest =>
    joinPath img_out_dir (basename img_path) ::
      joinPath label_out_dir (basename label_path) ::
        destPaths img_out_dir label_out_dir rest

theorem readFile_writeFile (fs : FS) (p q : String) (c : Nat) :
    readFile (writeFile fs p c) q = if q = p then some c else readFile fs q := by
  by_cases h : q = p
  · simp [readFile, writeFile, List.find?, h]
  · simp only [readFile, writeFile, List.find?, if_neg h]
    have : ((p, c).1 == q) = false := by
      simp [Ne.symm h]
    rw [this]

theorem isSome_readFile_writeFile {fs : FS} {q : String} (p : String) (c : Nat)
    (h : (readFile fs q).isSome) : (readFile (writeFile fs p c) q).isSome := by
  rw [readFile_writeFile]
  split <;> simp [h]

theorem copy2_eq_ok {fs : FS} {src : String} {c : Nat} (dst : String)
    (h : readFile fs src = some c) :
    copy2 fs src dst = .ok (writeFile fs dst c) := by
  simp [copy2, h]

theorem copy2_ok_inv {fs fs' : FS} {src dst : String}
    (h : copy2 fs src dst = .ok fs') :
    ∃ c, readFile fs src = some c ∧ fs' = writeFile fs dst c := by
  cases hr : readFile fs src with
  | none => rw [copy2, hr] at h; cases h
  | some c =>
    rw [copy2, hr] at h
    cases h
    exact ⟨c, rfl, rfl⟩

theorem copy_data_frame (io lo : String) :
    ∀ (pairs : List (String × String)) (fs fs' : FS),
      copy_data fs io lo pairs = .ok fs' →
      ∀ p, p ∉ destPaths io lo pairs → readFile fs' p = readFile fs p
  | [], fs, fs', h, p, _ => by
    rw [copy_data] at h
    cases h
    rfl
  | (i, l) :: rest, fs, fs', h, p, hp => by
    rw [copy_data] at h
    split at h
    · cases h
    · rename_i fs1 h1
      split at h
      · cases h
      · rename_i fs2 h2
        obtain ⟨ci, hci, rfl⟩ := copy2_ok_inv h1
        obtain ⟨cl, hcl, rfl⟩ := copy2_ok_inv h2
        simp only [destPaths, List.mem_cons, not_or] at hp
        obtain ⟨hp1, hp2, hp3⟩ := hp
        rw [copy_data_frame io lo rest _ _ h p hp3,
          readFile_writeFile, readFile_writeFile, if_neg hp2, if_neg hp1]

theorem copy_data_isOk (io lo : String) :
    ∀ (pairs : List (String × String)) (fs : FS),
      (∀ pr ∈ pairs, (readFile fs pr.1).isSome ∧ (readFile fs pr.2).isSome) →
      ∃ fs', copy_data fs io lo pairs = .ok fs'
  | [], fs, _ => ⟨fs, rfl⟩
  | (i, l) :: rest, fs, hsrc => by
    have hi : (readFile fs i).isSome := (hsrc (i, l) (List.mem_cons_self _ _)).1
    have hl : (readFile fs l).isSome := (hsrc (i, l) (List.mem_cons_self _ _)).2
    obtain ⟨ci, hci⟩ := Option.isSome_iff_exists.mp hi
    have h1 := copy2_eq_ok (joinPath io (basename i)) hci
    have hl1 : (readFile (writeFile fs (joinPath io (basename i)) ci) l).isSome :=
      isSome_readFile_writeFile _ _ hl
    obtain ⟨cl, hcl⟩ := Option.isSome_iff_exists.mp hl1
    have h2 := copy2_eq_ok (joinPath lo (basename l)) hcl
    have hrest : ∀ pr ∈ rest,
        (readFile (writeFile (writeFile fs (joinPath io (basename i)) ci)
          (joinPath lo (basename l)) cl) pr.1).isSome ∧
        (readFile (writeFile (writeFile fs (joinPath io (basename i)) ci)
          (joinPath lo (basename l)) cl) pr.2).isSome := by
      intro pr hpr
      obtain ⟨h1', h2'⟩ := hsrc pr (List.mem_cons_of_mem _ hpr)
      exact ⟨isSome_readFile_writeFile _ _ (isSome_readFile_writeFile _ _ h1'),
        isSome_readFile_writeFile _ _ (isSome_readFile_writeFile _ _ h2')⟩
    obtain ⟨fs', hfs'⟩ := copy_data_isOk io lo rest _ hrest
    refine ⟨fs', ?_⟩
    simp only [copy_data, h1, h2]
    exact hfs'

theorem copy_data_dest (io lo : String) :
    ∀ (pairs : List (String × String)) (fs fs' : FS),
      copy_data fs io lo pairs = .ok fs' →
      (destPaths io lo pairs).Nodup →
      (∀ pr ∈ pairs, pr.1 ∉ destPaths io lo pairs ∧ pr.2 ∉ destPaths io lo pairs) →
      ∀ pr ∈ pairs,
        readFile fs' (joinPath io (basename pr.1)) = readFile fs pr.1 ∧
        readFile fs' (joinPath lo (basename pr.2)) = readFile fs pr.2
  | [], _, _, _, _, _, pr, hpr => by cases hpr
  | (i, l) :: rest, fs, fs', h, hnd, hdisj, pr, hpr => by
    rw [copy_data] at h
    split at h
    · cases h
    · rename_i fs1 h1
      split at h
      · cases h
      · rename_i fs2 h2
        obtain ⟨ci, hci, rfl⟩ := copy2_ok_inv h1
        obtain ⟨cl, hcl, rfl⟩ := copy2_ok_inv h2
        simp only [destPaths, List.nodup_cons, List.mem_cons, not_or] at hnd
        obtain ⟨⟨hne, hio⟩, hlo, hndrest⟩ := hnd
        obtain ⟨p1, p2⟩ := pr
        rcases List.mem_cons.mp hpr with heq | hpr'
        · injection heq with e1 e2
          subst e1; subst e2
          have hd := hdisj (p1, p2) (List.mem_cons_self _ _)
          simp only [destPaths, List.mem_cons, not_or] at hd
          constructor
          · rw [copy_data_frame io lo rest _ _ h _ hio,
              readFile_writeFile, if_neg hne, readFile_writeFile, if_pos rfl]
            exact hci.symm
          · rw [copy_data_frame io lo rest _ _ h _ hlo,
              readFile_writeFile, if_pos rfl, ← hcl,
              readFile_writeFile, if_neg hd.2.1]
        · have hdisj' : ∀ pr' ∈ rest, pr'.1 ∉ destPaths io lo rest ∧
              pr'.2 ∉ destPaths io lo rest := by
            intro pr' hpr''
            obtain ⟨hd1, hd2⟩ := hdisj pr' (List.mem_cons_of_mem _ hpr'')
            simp only [destPaths, List.mem_cons, not_or] at hd1 hd2
            exact ⟨hd1.2.2, hd2.2.2⟩
          have ih := copy_data_dest io lo rest _ _ h hndrest hdisj' (p1, p2) hpr'
          have hd := hdisj (p1, p2) (List.mem_cons_of_mem _ hpr')
          simp only [destPaths, List.mem_cons, not_or] at hd
          rw [ih.1, ih.2, readFile_writeFile, if_neg hd.1.2.1, readFile_writeFile,
            if_neg hd.1.1, readFile_writeFile, if_neg hd.2.2.1, readFile_writeFile,
            if_neg hd.2.1]
          exact ⟨rfl, rfl⟩

theorem mkdirsPrefixes_ok :
    ∀ (ps : List String) (fs : FS),
      (∀ p ∈ ps, ¬ ((fs.files.map Prod.fst).contains p = true)) →
      ∃ fs', mkdirsPrefixes fs ps = .ok fs' ∧ fs'.files = fs.files ∧
        ∀ x, x ∈ fs'.dirs ↔ x ∈ fs.dirs ∨ x ∈ ps
  | [], fs, _ => ⟨fs, rfl, rfl, by simp⟩
  | p :: ps, fs, hf => by
    by_cases hp : p ∈ fs.dirs
    · have h1 : mkdirOne fs p = .ok fs := by simp [mkdirOne, hp]
      obtain ⟨fs', hok, hfiles, hdirs⟩ :=
        mkdirsPrefixes_ok ps fs (fun q hq => hf q (List.mem_cons_of_mem _ hq))
      refine ⟨fs', ?_, hfiles, ?_⟩
      · simp only [mkdirsPrefixes, h1]
        exact hok
      · intro x
        rw [hdirs x, List.mem_cons]
        constructor
        · rintro (h | h)
          · exact Or.inl h
          · exact Or.inr (Or.inr h)
        · rintro (h | rfl | h)
          · exact Or.inl h
          · exact Or.inl hp
          · exact Or.inr h
    · have h1 : mkdirOne fs p = .ok { fs with dirs := p :: fs.dirs } := by
        have hc := hf p (List.mem_cons_self _ _)
        rw [mkdirOne, if_neg hp, if_neg hc]
      obtain ⟨fs', hok, hfiles, hdirs⟩ :=
        mkdirsPrefixes_ok ps { fs with dirs := p :: fs.dirs }
          (fun q hq => hf q (List.mem_cons_of_mem _ hq))
      refine ⟨fs', ?_, hfiles, ?_⟩
      · simp only [mkdirsPrefixes, h1]
        exact hok
      · intro x
        rw [hdirs x]
        simp only [List.mem_cons]
        tauto

theorem mkdirsPrefixes_noop :
    ∀ (ps : List String) (fs : FS), (∀ p ∈ ps, p ∈ fs.dirs) →
      mkdirsPrefixes fs ps = .ok fs
  | [], _, _ => rfl
  | p :: ps, fs, h => by
    have h1 : mkdirOne fs p = .ok fs := by
      simp [mkdirOne, h p (List.mem_cons_self _ _)]
    simp only [mkdirsPrefixes, h1]
    exact mkdirsPrefixes_noop ps fs (fun q hq => h q (List.mem_cons_of_mem _ hq))

theorem makedirs_true (fs : FS) (d : String) :
    makedirs fs d true = mkdirsPrefixes fs (pathPrefixes d) := by
  simp [makedirs]

theorem makedirsAll_ok :
    ∀ (ds : List String) (fs : FS),
      (∀ d ∈ ds, ∀ p ∈ pathPrefixes d, ¬ ((fs.files.map Prod.fst).contains p = true)) →
      ∃ fs', makedirsAll fs ds = .ok fs' ∧ fs'.files = fs.files ∧
        ∀ x, x ∈ fs'.dirs ↔ x ∈ fs.dirs ∨ ∃ d ∈ ds, x ∈ pathPrefixes d
  | [], fs, _ => ⟨fs, rfl, rfl, by simp⟩
  | d :: ds, fs, hf => by
    obtain ⟨fs1, hok1, hfiles1, hdirs1⟩ :=
      mkdirsPrefixes_ok (pathPrefixes d) fs (hf d (List.mem_cons_self _ _))
    obtain ⟨fs', hok, hfiles, hdirs⟩ := makedirsAll_ok ds fs1 (by
      rw [hfiles1]
      exact fun d' hd' => hf d' (List.mem_cons_of_mem _ hd'))
    refine ⟨fs', ?_, by rw [hfiles, hfiles1], ?_⟩
    · simp only [makedirsAll, makedirs_true, hok1]
      exact hok
    · intro x
      rw [hdirs x, hdirs1 x]
      simp only [List.mem_cons]
      constructor
      · rintro ((h | h) | ⟨d', hd', hx⟩)
        · exact Or.inl h
        · exact Or.inr ⟨d, Or.inl rfl, h⟩
        · exact Or.inr ⟨d', Or.inr hd', hx⟩
      · rintro (h | ⟨d', hd' | hd', hx⟩)
        · exact Or.inl (Or.inl h)
        · exact Or.inl (Or.inr (hd' ▸ hx))
        · exact Or.inr ⟨d', hd', hx⟩

theorem makedirsAll_noop :
    ∀ (ds : List String) (fs : FS),
      (∀ d ∈ ds, ∀ p ∈ pathPrefixes d, p ∈ fs.dirs) →
      makedirsAll fs ds = .ok fs
  | [], _, _ => rfl
  | d :: ds, fs, h => by
    have h1 : makedirs fs d true = .ok fs := by
      rw [makedirs_true]
      exact mkdirsPrefixes_noop _ _ (h d (List.mem_cons_self _ _))
    simp only [makedirsAll, h1]
    exact makedirsAll_noop ds fs (fun q hq => h q (List.mem_cons_of_mem _ hq))

theorem valid_pairs_cons (fs : FS) (labels_dir x : String) (imgs : List String) :
    valid_pairs fs labels_dir (x :: imgs) =
      if isFile fs (labelPathFor labels_dir x)
      then (x, labelPathFor labels_dir x) :: valid_pairs fs labels_dir imgs
      else valid_pairs fs labels_dir imgs := by
  by_cases hl : isFile fs (labelPathFor labels_dir x) <;>
    simp [valid_pairs, List.filterMap_cons, hl]

theorem skip_warnings_cons (fs : FS) (labels_dir x : String) (imgs : List String) :
    skip_warnings fs labels_dir (x :: imgs) =
      if isFile fs (labelPathFor labels_dir x)
      then skip_warnings fs labels_dir imgs
      else (x, labelPathFor labels_dir x) :: skip_warnings fs labels_dir imgs := by
  by_cases hl : isFile fs (labelPathFor labels_dir x) <;>
    simp [skip_warnings, List.filterMap_cons, hl]

theorem valid_pairs_countP (fs : FS) (labels_dir img : String) :
    ∀ imgs : List String,
      (valid_pairs fs labels_dir imgs).countP (fun q => q.1 == img) =
        if isFile fs (labelPathFor labels_dir img) then imgs.count img else 0
  | [] => by simp [valid_pairs]
  | x :: imgs => by
    have ih := valid_pairs_countP fs labels_dir img imgs
    rw [valid_pairs_cons]
    by_cases hx : x = img
    · subst hx
      by_cases hl : isFile fs (labelPathFor labels_dir x)
      · rw [if_pos hl, List.countP_cons, ih, if_pos hl, if_pos hl,
          List.count_cons_self]
        simp
      · rw [if_neg hl, ih, if_neg hl, if_neg hl]
    · by_cases hl : isFile fs (labelPathFor labels_dir x)
      · rw [if_pos hl, List.countP_cons, ih,
          List.count_cons_of_ne (fun h => hx h.symm)]
        simp [hx]
      · rw [if_neg hl, ih, List.count_cons_of_ne (fun h => hx h.symm)]

theorem skip_warnings_countP (fs : FS) (labels_dir img : String) :
    ∀ imgs : List String,
      (skip_warnings fs labels_dir imgs).countP (fun q => q.1 == img) =
        if isFile fs (labelPathFor labels_dir img) then 0 else imgs.count img
  | [] => by simp [skip_warnings]
  | x :: imgs => by
    have ih := skip_warnings_countP fs labels_dir img imgs
    rw [skip_warnings_cons]
    by_cases hx : x = img
    · subst hx
      by_cases hl : isFile fs (labelPathFor labels_dir x)
      · rw [if_pos hl, ih, if_pos hl, if_pos hl]
      · rw [if_neg hl, List.countP_cons, ih, if_neg hl, if_neg hl,
          List.count_cons_self]
        simp
    · by_cases hl : isFile fs (labelPathFor labels_dir x)
      · rw [if_pos hl, ih, List.count_cons_of_ne (fun h => hx h.symm)]
      · rw [if_neg hl, List.countP_cons, ih,
          List.count_cons_of_ne (fun h => hx h.symm)]
        simp [hx]

theorem mem_valid_pairs {fs : FS} {labels_dir : String} {imgs : List String}
    {q : String × String} :
    q ∈ valid_pairs fs labels_dir imgs ↔
      q.1 ∈ imgs ∧ q.2 = labelPathFor labels_dir q.1 ∧
        isFile fs (labelPathFor labels_dir q.1) = true := by
  simp only [valid_pairs, List.mem_filterMap]
  constructor
  · rintro ⟨a, ha, hq⟩
    by_cases hl : isFile fs (labelPathFor labels_dir a)
    · rw [if_pos hl] at hq
      cases hq
      exact ⟨ha, rfl, hl⟩
    · rw [if_neg hl] at hq
      cases hq
  · rintro ⟨h1, h2, h3⟩
    refine ⟨q.1, h1, ?_⟩
    rw [if_pos h3, ← h2]

theorem mem_skip_warnings {fs : FS} {labels_dir : String} {imgs : List String}
    {w : String × String} :
    w ∈ skip_warnings fs labels_dir imgs ↔
      w.1 ∈ imgs ∧ w.2 = labelPathFor labels_dir w.1 ∧
        isFile fs (labelPathFor labels_dir w.1) = false := by
  simp only [skip_warnings, List.mem_filterMap]
  constructor
  · rintro ⟨a, ha, hw⟩
    by_cases hl : isFile fs (labelPathFor labels_dir a)
    · rw [if_pos hl] at hw
      cases hw
    · rw [if_neg hl] at hw
      cases hw
      exact ⟨ha, rfl, by simpa using hl⟩
  · rintro ⟨h1, h2, h3⟩
    refine ⟨w.1, h1, ?_⟩
    rw [if_neg (by simp [h3]), ← h2]

theorem valid_pairs_map_fst_sublist (fs : FS) (labels_dir : String) :
    ∀ imgs : List String,
      List.Sublist ((valid_pairs fs labels_dir imgs).map Prod.fst) imgs
  | [] => by simp [valid_pairs]
  | x :: imgs => by
    rw [valid_pairs_cons]
    by_cases hl : isFile fs (labelPathFor labels_dir x)
    · rw [if_pos hl, List.map_cons]
      exact (valid_pairs_map_fst_sublist fs labels_dir imgs).cons₂ x
    · rw [if_neg hl]
      exact (valid_pairs_map_fst_sublist fs labels_dir imgs).cons x

/-! ## The claims -/

/-- C1: for every discovered valid-pair list and every `train_ratio` in
`(0, 1]`, the partition step assigns every pair to exactly one split —
the training prefix and validation suffix are disjoint, their lengths sum
to the number of valid pairs, and every pair lands in exactly one of the
two slices. -/
theorem C1_partition_exactly_one (pairs : List (String × String))
    (train_ratio : ℚ) (seed : Nat) (hnd : pairs.Nodup)
    (h0 : 0 < train_ratio) (h1 : train_ratio ≤ 1) :
    (partition pairs train_ratio seed).1.length +
        (partition pairs train_ratio seed).2.length = pairs.length ∧
      (partition pairs train_ratio seed).1.Disjoint
        (partition pairs train_ratio seed).2 ∧
      ∀ p ∈ pairs,
        (p ∈ (partition pairs train_ratio seed).1 ∧
          p ∉ (partition pairs train_ratio seed).2) ∨
        (p ∈ (partition pairs train_ratio seed).2 ∧
          p ∉ (partition pairs train_ratio seed).1) := by
  have happ := partition_append pairs train_ratio seed
  have hperm := shuffle_perm seed pairs
  have hlen : (partition pairs train_ratio seed).1.length +
      (partition pairs train_ratio seed).2.length = pairs.length := by
    rw [← List.length_append, happ, hperm.length_eq]
  have hnds : (shuffle seed pairs).Nodup := hperm.symm.nodup hnd
  have hndapp : ((partition pairs train_ratio seed).1 ++
      (partition pairs train_ratio seed).2).Nodup := by
    rw [happ]; exact hnds
  have hdisj := (List.nodup_append.mp hndapp).2.2
  refine ⟨hlen, hdisj, ?_⟩
  intro p hp
  have hmem : p ∈ (partition pairs train_ratio seed).1 ++
      (partition pairs train_ratio seed).2 := by
    rw [happ]; exact hperm.symm.subset hp
  rcases List.mem_append.mp hmem with h | h
  · exact Or.inl ⟨h, fun h2 => hdisj h h2⟩
  · exact Or.inr ⟨h, fun h2 => hdisj h2 h⟩

/-- C2: for every valid-pair count and every `train_ratio` in `(0, 1]`,
the training split holds exactly `⌊total * train_ratio⌋` pairs,
truncating (the model embeds the `train_ratio` float as an exact rational
and `int()` as truncation toward zero). -/
theorem C2_train_count_floor (pairs : List (String × String))
    (train_ratio : ℚ) (seed : Nat) (h0 : 0 < train_ratio)
    (h1 : train_ratio ≤ 1) :
    ((partition pairs train_ratio seed).1.length : ℤ) =
      ⌊(pairs.length : ℚ) * train_ratio⌋ :=
  partition_fst_length pairs train_ratio seed (le_of_lt h0) h1

/-- C3: for a fixed file set and a fixed seed, the train/valid membership
produced by discovery followed by partition is identical for any two
enumeration orders of the images directory. -/
theorem C3_determinism (fs : FS) (images_dir labels_dir : String)
    (entries₁ entries₂ : List String) (train_ratio : ℚ) (seed : Nat)
    (hperm : List.Perm entries₁ entries₂) :
    partition (valid_pairs fs labels_dir (image_files images_dir entries₁))
        train_ratio seed =
      partition (valid_pairs fs labels_dir (image_files images_dir entries₂))
        train_ratio seed := by
  rw [image_files_perm_inv images_dir hperm]

/-- C4: for every enumerated image, when the label file is missing no
pair is produced and exactly one warning naming the image and the missing
label path is emitted; when the label exists exactly one pair is
produced, carrying that label path, and no warning is emitted. -/
theorem C4_pairing (fs : FS) (labels_dir : String) (imgs : List String)
    (img : String) (hnd : imgs.Nodup) (him : img ∈ imgs) :
    ((valid_pairs fs labels_dir imgs).countP (fun q => q.1 == img) =
        if isFile fs (labelPathFor labels_dir img) then 1 else 0) ∧
      ((skip_warnings fs labels_dir imgs).countP (fun q => q.1 == img) =
        if isFile fs (labelPathFor labels_dir img) then 0 else 1) ∧
      (∀ q ∈ valid_pairs fs labels_dir imgs, q.1 = img →
        q.2 = labelPathFor labels_dir img) ∧
      (∀ w ∈ skip_warnings fs labels_dir imgs, w.1 = img →
        w.2 = labelPathFor labels_dir img) := by
  have hc : imgs.count img = 1 := List.count_eq_one_of_mem hnd him
  refine ⟨?_, ?_, ?_, ?_⟩
  · rw [valid_pairs_countP, hc]
  · rw [skip_warnings_countP, hc]
  · intro q hq he
    obtain ⟨-, h2, -⟩ := mem_valid_pairs.mp hq
    rw [h2, he]
  · intro w hw he
    obtain ⟨-, h2, -⟩ := mem_skip_warnings.mp hw
    rw [h2, he]

/-- C5: a missing input directory is a fatal configuration error naming
the offending path, raised before `split_and_copy` runs; the model's
`main` returns the error outcome, which carries no filesystem mutation
(no directory creation, no copy). -/
theorem C5_config_error (fs : FS) (images_dir labels_dir : String)
    (train_ratio : ℚ) (seed : Nat) :
    (images_dir ∉ fs.dirs →
      main fs images_dir labels_dir train_ratio seed =
        .error ("FileNotFoundError: images_dir: " ++ images_dir)) ∧
    (images_dir ∈ fs.dirs → labels_dir ∉ fs.dirs →
      main fs images_dir labels_dir train_ratio seed =
        .error ("FileNotFoundError: labels_dir: " ++ labels_dir)) := by
  constructor
  · intro h
    rw [main, if_pos h]
  · intro h1 h2
    rw [main, if_neg (not_not_intro h1), if_pos h2]

/-- C6: `copy_data` writes every image into `img_out_dir` and every
label into `label_out_dir` under the original filename with content
identical to the source, and leaves every source file unmodified
(sources and destinations being distinct paths). -/
theorem C6_copy_fidelity (fs : FS) (img_out_dir label_out_dir : String)
    (pairs : List (String × String))
    (hsrc : ∀ pr ∈ pairs, (readFile fs pr.1).isSome ∧ (readFile fs pr.2).isSome)
    (hnd : (destPaths img_out_dir label_out_dir pairs).Nodup)
    (hdisj : ∀ pr ∈ pairs,
      pr.1 ∉ destPaths img_out_dir label_out_dir pairs ∧
      pr.2 ∉ destPaths img_out_dir label_out_dir pairs) :
    ∃ fs', copy_data fs img_out_dir label_out_dir pairs = .ok fs' ∧
      (∀ pr ∈ pairs,
        readFile fs' (joinPath img_out_dir (basename pr.1)) = readFile fs pr.1 ∧
        readFile fs' (joinPath label_out_dir (basename pr.2)) = readFile fs pr.2) ∧
      (∀ pr ∈ pairs, readFile fs' pr.1 = readFile fs pr.1 ∧
        readFile fs' pr.2 = readFile fs pr.2) := by
  obtain ⟨fs', hok⟩ := copy_data_isOk _ _ pairs fs hsrc
  refine ⟨fs', hok, copy_data_dest _ _ pairs fs fs' hok hnd hdisj, ?_⟩
  intro pr hpr
  exact ⟨copy_data_frame _ _ pairs fs fs' hok _ (hdisj pr hpr).1,
    copy_data_frame _ _ pairs fs fs' hok _ (hdisj pr hpr).2⟩

/-- C7: directory creation is idempotent — against any output tree (some
or all of the four layout directories may already exist, and no file
occupies any needed path) `create_dir_structure` succeeds, and running it
a second time succeeds with no change and no
"directory already exists" error. -/
theorem C7_idempotent_mkdir (fs : FS) (base_dir : String)
    (hnofile : ∀ d ∈ layoutDirs base_dir, ∀ p ∈ pathPrefixes d,
      ¬ ((fs.files.map Prod.fst).contains p = true)) :
    ∃ fs', create_dir_structure fs base_dir = .ok fs' ∧
      create_dir_structure fs' base_dir = .ok fs' := by
  obtain ⟨fs', hok, hfiles, hdirs⟩ := makedirsAll_ok (layoutDirs base_dir) fs hnofile
  refine ⟨fs', hok, ?_⟩
  exact makedirsAll_noop _ _ (fun d hd p hp => (hdirs p).mpr (Or.inr ⟨d, hd, hp⟩))

/-- C8: discovery sorts the enumerated image paths before pairing — the
`image_files` list is sorted, is independent of the enumeration order of
the directory, and the candidate pair list handed to the partitioner is
in sorted order by image path. -/
theorem C8_discovery_sorted (fs : FS) (images_dir labels_dir : String)
    (entries₁ entries₂ : List String) (hperm : List.Perm entries₁ entries₂) :
    (image_files images_dir entries₁).Sorted (· ≤ ·) ∧
      image_files images_dir entries₁ = image_files images_dir entries₂ ∧
      ((valid_pairs fs labels_dir (image_files images_dir entries₁)).map
        Prod.fst).Sorted (· ≤ ·) := by
  refine ⟨image_files_sorted _ _, image_files_perm_inv _ hperm, ?_⟩
  exact (image_files_sorted images_dir entries₁).sublist
    (valid_pairs_map_fst_sublist fs labels_dir _)

/-- C9: for every rational `train_ratio`, with no range restriction, the
partition step is total (no error) and the training slice concatenated
with the validation slice is the whole shuffled pair list, which is a
permutation of the valid pairs — Python slicing partitions the list even
for negative or overlarge `int(total * train_ratio)`. -/
theorem C9_partition_total (pairs : List (String × String))
    (train_ratio : ℚ) (seed : Nat) :
    (partition pairs train_ratio seed).1 ++ (partition pairs train_ratio seed).2 =
        shuffle seed pairs ∧
      List.Perm (shuffle seed pairs) pairs :=
  ⟨partition_append pairs train_ratio seed, shuffle_perm seed pairs⟩

/-- C10: when the images directory holds both `<stem>.jpg` and
`<stem>.jpeg` and the labels directory holds `<stem>.txt`, discovery
produces two distinct pairs sharing the same label path, both survive
partitioning, and copying that shared label to an occupied destination
succeeds, silently overwriting it with the label content. -/
theorem C10_duplicate_stem (fs : FS) (images_dir labels_dir stem : String)
    (entries : List String) (train_ratio : ℚ) (seed : Nat)
    (hjpg : (stem ++ ".jpg") ∈ entries) (hjpeg : (stem ++ ".jpeg") ∈ entries)
    (hm1 : globMatch ".jpg" (stem ++ ".jpg") = true)
    (hm2 : globMatch ".jpeg" (stem ++ ".jpeg") = true)
    (hs1 : splitextStem (basename (joinPath images_dir (stem ++ ".jpg"))) = stem)
    (hs2 : splitextStem (basename (joinPath images_dir (stem ++ ".jpeg"))) = stem)
    (hlab : isFile fs (joinPath labels_dir (stem ++ ".txt")) = true) :
    (joinPath images_dir (stem ++ ".jpg"), joinPath labels_dir (stem ++ ".txt")) ∈
        valid_pairs fs labels_dir (image_files images_dir entries) ∧
      (joinPath images_dir (stem ++ ".jpeg"), joinPath labels_dir (stem ++ ".txt")) ∈
        valid_pairs fs labels_dir (image_files images_dir entries) ∧
      (joinPath images_dir (stem ++ ".jpg"), joinPath labels_dir (stem ++ ".txt")) ≠
        (joinPath images_dir (stem ++ ".jpeg"), joinPath labels_dir (stem ++ ".txt")) ∧
      (∀ p ∈ [(joinPath images_dir (stem ++ ".jpg"), joinPath labels_dir (stem ++ ".txt")),
              (joinPath images_dir (stem ++ ".jpeg"), joinPath labels_dir (stem ++ ".txt"))],
        p ∈ (partition (valid_pairs fs labels_dir (image_files images_dir entries))
              train_ratio seed).1 ++
            (partition (valid_pairs fs labels_dir (image_files images_dir entries))
              train_ratio seed).2) ∧
      (∀ (fs₂ : FS) (c : Nat) (dst : String),
        readFile fs₂ (joinPath labels_dir (stem ++ ".txt")) = some c →
          copy2 fs₂ (joinPath labels_dir (stem ++ ".txt")) dst =
            .ok (writeFile fs₂ dst c) ∧
          readFile (writeFile fs₂ dst c) dst = some c) := by
  have hlp1 : labelPathFor labels_dir (joinPath images_dir (stem ++ ".jpg")) =
      joinPath labels_dir (stem ++ ".txt") := by
    rw [labelPathFor, hs1]
  have hlp2 : labelPathFor labels_dir (joinPath images_dir (stem ++ ".jpeg")) =
      joinPath labels_dir (stem ++ ".txt") := by
    rw [labelPathFor, hs2]
  have him1 : joinPath images_dir (stem ++ ".jpg") ∈ image_files images_dir entries := by
    rw [image_files, pySorted, List.mem_insertionSort, globImages]
    exact List.mem_append_left _
      (List.mem_map_of_mem _ (List.mem_filter.mpr ⟨hjpg, hm1⟩))
  have him2 : joinPath images_dir (stem ++ ".jpeg") ∈ image_files images_dir entries := by
    rw [image_files, pySorted, List.mem_insertionSort, globImages]
    exact List.mem_append_right _
      (List.mem_map_of_mem _ (List.mem_filter.mpr ⟨hjpeg, hm2⟩))
  have hv1 : (joinPath images_dir (stem ++ ".jpg"),
      joinPath labels_dir (stem ++ ".txt")) ∈
        valid_pairs fs labels_dir (image_files images_dir entries) :=
    mem_valid_pairs.mpr ⟨him1, hlp1.symm, by rw [hlp1]; exact hlab⟩
  have hv2 : (joinPath images_dir (stem ++ ".jpeg"),
      joinPath labels_dir (stem ++ ".txt")) ∈
        valid_pairs fs labels_dir (image_files images_dir entries) :=
    mem_valid_pairs.mpr ⟨him2, hlp2.symm, by rw [hlp2]; exact hlab⟩
  have hne : (joinPath images_dir (stem ++ ".jpg"),
      joinPath labels_dir (stem ++ ".txt")) ≠
        (joinPath images_dir (stem ++ ".jpeg"),
          joinPath labels_dir (stem ++ ".txt")) := by
    intro h
    have h1 := congrArg (fun q => q.1.length) h
    simp only [joinPath, String.length_append] at h1
    have e1 : (".jpg" : String).length = 4 := rfl
    have e2 : (".jpeg" : String).length = 5 := rfl
    omega
  refine ⟨hv1, hv2, hne, ?_, ?_⟩
  · intro p hp
    have hmem : p ∈ valid_pairs fs labels_dir (image_files images_dir entries) := by
      rcases List.mem_cons.mp hp with rfl | hp'
      · exact hv1
      · rcases List.mem_cons.mp hp' with rfl | hp''
        · exact hv2
        · cases hp''
    rw [partition_append]
    exact (shuffle_perm seed _).symm.subset hmem
  · intro fs₂ c dst hread
    refine ⟨copy2_eq_ok dst hread, ?_⟩
    rw [readFile_writeFile, if_pos rfl]

/-! ## Concrete witnesses -/

/-- A small concrete filesystem used by several witnesses. -/
def sampleFS : FS :=
  ⟨["data/images", "data/labels"],
   [("data/images/a.jpg", 1), ("data/images/b.jpg", 2), ("data/images/c.jpg", 3),
    ("data/labels/a.txt", 11), ("data/labels/b.txt", 12)]⟩

/-- A filesystem whose output tree already holds two of the four layout
directories. -/
def twoDirFS : FS :=
  ⟨["data", "data/train", "data/train/images"], [("data/images/a.jpg", 1)]⟩

/-- A filesystem holding a `.jpg`/`.jpeg` name collision with one shared
label. -/
def dupStemFS : FS :=
  ⟨["data/images", "data/labels"],
   [("data/images/b.jpg", 2), ("data/images/b.jpeg", 4), ("data/labels/b.txt", 12)]⟩

theorem C1_partition_exactly_one_witness :
    ([("a", "x"), ("b", "y"), ("c", "z")] : List (String × String)).Nodup ∧
      (0 : ℚ) < 4/5 ∧ (4/5 : ℚ) ≤ 1 ∧
      ((partition [("a", "x"), ("b", "y"), ("c", "z")] (4/5) 42).1.length +
          (partition [("a", "x"), ("b", "y"), ("c", "z")] (4/5) 42).2.length =
          ([("a", "x"), ("b", "y"), ("c", "z")] : List (String × String)).length ∧
        (partition [("a", "x"), ("b", "y"), ("c", "z")] (4/5) 42).1.Disjoint
          (partition [("a", "x"), ("b", "y"), ("c", "z")] (4/5) 42).2 ∧
        ∀ p ∈ ([("a", "x"), ("b", "y"), ("c", "z")] : List (String × String)),
          (p ∈ (partition [("a", "x"), ("b", "y"), ("c", "z")] (4/5) 42).1 ∧
            p ∉ (partition [("a", "x"), ("b", "y"), ("c", "z")] (4/5) 42).2) ∨
          (p ∈ (partition [("a", "x"), ("b", "y"), ("c", "z")] (4/5) 42).2 ∧
            p ∉ (partition [("a", "x"), ("b", "y"), ("c", "z")] (4/5) 42).1)) :=
  ⟨by decide, by norm_num, by norm_num,
    C1_partition_exactly_one _ _ 42 (by decide) (by norm_num) (by norm_num)⟩

theorem C2_train_count_floor_witness :
    (0 : ℚ) < 4/5 ∧ (4/5 : ℚ) ≤ 1 ∧
      ((partition [("a", "x"), ("b", "y"), ("c", "z")] (4/5) 42).1.length : ℤ) =
        ⌊(([("a", "x"), ("b", "y"), ("c", "z")] : List (String × String)).length : ℚ) *
          (4/5)⌋ :=
  ⟨by norm_num, by norm_num,
    C2_train_count_floor _ _ 42 (by norm_num) (by norm_num)⟩

theorem C3_determinism_witness :
    List.Perm ["b.jpg", "a.jpg"] ["a.jpg", "b.jpg"] ∧
      partition (valid_pairs sampleFS "data/labels"
          (image_files "data/images" ["b.jpg", "a.jpg"])) (4/5) 42 =
        partition (valid_pairs sampleFS "data/labels"
          (image_files "data/images" ["a.jpg", "b.jpg"])) (4/5) 42 :=
  ⟨by decide,
    C3_determinism sampleFS "data/images" "data/labels" _ _ (4/5) 42 (by decide)⟩

theorem C4_pairing_witness :
    (["data/images/a.jpg", "data/images/zz.jpg"] : List String).Nodup ∧
      "data/images/zz.jpg" ∈ ["data/images/a.jpg", "data/images/zz.jpg"] ∧
      (((valid_pairs sampleFS "data/labels"
            ["data/images/a.jpg", "data/images/zz.jpg"]).countP
          (fun q => q.1 == "data/images/zz.jpg") =
          if isFile sampleFS (labelPathFor "data/labels" "data/images/zz.jpg")
          then 1 else 0) ∧
        ((skip_warnings sampleFS "data/labels"
            ["data/images/a.jpg", "data/images/zz.jpg"]).countP
          (fun q => q.1 == "data/images/zz.jpg") =
          if isFile sampleFS (labelPathFor "data/labels" "data/images/zz.jpg")
          then 0 else 1) ∧
        (∀ q ∈ valid_pairs sampleFS "data/labels"
            ["data/images/a.jpg", "data/images/zz.jpg"],
          q.1 = "data/images/zz.jpg" →
            q.2 = labelPathFor "data/labels" "data/images/zz.jpg") ∧
        (∀ w ∈ skip_warnings sampleFS "data/labels"
            ["data/images/a.jpg", "data/images/zz.jpg"],
          w.1 = "data/images/zz.jpg" →
            w.2 = labelPathFor "data/labels" "data/images/zz.jpg")) :=
  ⟨by decide, by decide,
    C4_pairing sampleFS "data/labels" _ _ (by decide) (by decide)⟩

theorem C5_config_error_witness :
    "nope" ∉ sampleFS.dirs ∧
      main sampleFS "nope" "data/labels" 1 0 =
        .error ("FileNotFoundError: images_dir: " ++ "nope") :=
  ⟨by decide, (C5_config_error sampleFS "nope" "data/labels" 1 0).1 (by decide)⟩

theorem C6_copy_fidelity_witness :
    (∀ pr ∈ [("data/images/a.jpg", "data/labels/a.txt"),
             ("data/images/b.jpg", "data/labels/b.txt")],
      (readFile sampleFS pr.1).isSome ∧ (readFile sampleFS pr.2).isSome) ∧
      (destPaths "data/train/images" "data/train/labels"
        [("data/images/a.jpg", "data/labels/a.txt"),
         ("data/images/b.jpg", "data/labels/b.txt")]).Nodup ∧
      (∀ pr ∈ [("data/images/a.jpg", "data/labels/a.txt"),
               ("data/images/b.jpg", "data/labels/b.txt")],
        pr.1 ∉ destPaths "data/train/images" "data/train/labels"
          [("data/images/a.jpg", "data/labels/a.txt"),
           ("data/images/b.jpg", "data/labels/b.txt")] ∧
        pr.2 ∉ destPaths "data/train/images" "data/train/labels"
          [("data/images/a.jpg", "data/labels/a.txt"),
           ("data/images/b.jpg", "data/labels/b.txt")]) ∧
      ∃ fs', copy_data sampleFS "data/train/images" "data/train/labels"
          [("data/images/a.jpg", "data/labels/a.txt"),
           ("data/images/b.jpg", "data/labels/b.txt")] = .ok fs' ∧
        (∀ pr ∈ [("data/images/a.jpg", "data/labels/a.txt"),
                 ("data/images/b.jpg", "data/labels/b.txt")],
          readFile fs' (joinPath "data/train/images" (basename pr.1)) =
            readFile sampleFS pr.1 ∧
          readFile fs' (joinPath "data/train/labels" (basename pr.2)) =
            readFile sampleFS pr.2) ∧
        (∀ pr ∈ [("data/images/a.jpg", "data/labels/a.txt"),
                 ("data/images/b.jpg", "data/labels/b.txt")],
          readFile fs' pr.1 = readFile sampleFS pr.1 ∧
          readFile fs' pr.2 = readFile sampleFS pr.2) :=
  ⟨by decide, by decide, by decide,
    C6_copy_fidelity sampleFS "data/train/images" "data/train/labels" _
      (by decide) (by decide) (by decide)⟩

theorem C7_idempotent_mkdir_witness :
    (∀ d ∈ layoutDirs "data", ∀ p ∈ pathPrefixes d,
      ¬ ((twoDirFS.files.map Prod.fst).contains p = true)) ∧
      ∃ fs', create_dir_structure twoDirFS "data" = .ok fs' ∧
        create_dir_structure fs' "data" = .ok fs' :=
  ⟨by decide, C7_idempotent_mkdir twoDirFS "data" (by decide)⟩

theorem C8_discovery_sorted_witness :
    List.Perm ["b.jpg", "a.jpg"] ["a.jpg", "b.jpg"] ∧
      ((image_files "data/images" ["b.jpg", "a.jpg"]).Sorted (· ≤ ·) ∧
        image_files "data/images" ["b.jpg", "a.jpg"] =
          image_files "data/images" ["a.jpg", "b.jpg"] ∧
        ((valid_pairs sampleFS "data/labels"
          (image_files "data/images" ["b.jpg", "a.jpg"])).map Prod.fst).Sorted
            (· ≤ ·)) :=
  ⟨by decide,
    C8_discovery_sorted sampleFS "data/images" "data/labels" _ _ (by decide)⟩

theorem C10_duplicate_stem_witness :
    ("b" ++ ".jpg") ∈ ["b.jpg", "b.jpeg"] ∧
      ("b" ++ ".jpeg") ∈ ["b.jpg", "b.jpeg"] ∧
      globMatch ".jpg" ("b" ++ ".jpg") = true ∧
      globMatch ".jpeg" ("b" ++ ".jpeg") = true ∧
      splitextStem (basename (joinPath "data/images" ("b" ++ ".jpg"))) = "b" ∧
      splitextStem (basename (joinPath "data/images" ("b" ++ ".jpeg"))) = "b" ∧
      isFile dupStemFS (joinPath "data/labels" ("b" ++ ".txt")) = true ∧
      ((joinPath "data/images" ("b" ++ ".jpg"), joinPath "data/labels" ("b" ++ ".txt")) ∈
          valid_pairs dupStemFS "data/labels"
            (image_files "data/images" ["b.jpg", "b.jpeg"]) ∧
        (joinPath "data/images" ("b" ++ ".jpeg"), joinPath "data/labels" ("b" ++ ".txt")) ∈
          valid_pairs dupStemFS "data/labels"
            (image_files "data/images" ["b.jpg", "b.jpeg"]) ∧
        (joinPath "data/images" ("b" ++ ".jpg"), joinPath "data/labels" ("b" ++ ".txt")) ≠
          (joinPath "data/images" ("b" ++ ".jpeg"),
            joinPath "data/labels" ("b" ++ ".txt")) ∧
        (∀ p ∈ [(joinPath "data/images" ("b" ++ ".jpg"),
                  joinPath "data/labels" ("b" ++ ".txt")),
                (joinPath "data/images" ("b" ++ ".jpeg"),
                  joinPath "data/labels" ("b" ++ ".txt"))],
          p ∈ (partition (valid_pairs dupStemFS "data/labels"
                (image_files "data/images" ["b.jpg", "b.jpeg"])) (4/5) 42).1 ++
              (partition (valid_pairs dupStemFS "data/labels"
                (image_files "data/images" ["b.jpg", "b.jpeg"])) (4/5) 42).2) ∧
        (∀ (fs₂ : FS) (c : Nat) (dst : String),
          readFile fs₂ (joinPath "data/labels" ("b" ++ ".txt")) = some c →
            copy2 fs₂ (joinPath "data/labels" ("b" ++ ".txt")) dst =
              .ok (writeFile fs₂ dst c) ∧
            readFile (writeFile fs₂ dst c) dst = some c)) :=
  ⟨by decide, by decide, by decide, by decide, by decide, by decide, by decide,
    C10_duplicate_stem dupStemFS "data/images" "data/labels" "b" _ (4/5) 42
      (by decide) (by decide) (by decide) (by decide) (by decide) (by decide)
      (by decide)⟩

end SplitTrainValid
